import Mathlib

/-!
Verification of the annotizer serialization engine.

This file gives a shallow embedding, in Lean 4, of the field-resolution and
serialization engine found in `src/utils.py` and `src/serializer.py` of the
annotizer repository, and proves or refutes the frozen specification claims
about it.

Conventions of the embedding:
* Python dicts keyed by strings become association lists `List (String × α)`
  with insertion-order iteration; `dictUpdate` models `d[k] = v` (an update
  keeps the original position of an existing key, an insertion appends).
* Python runtime values retrieved from source objects become the inductive
  type `Value`.  The `HasNoAttribute` singleton of `utils.py` is the
  distinguished constructor `Value.marker`; attribute lookup on the marker
  exposes the attributes the singleton really has in Python (its class
  docstring `__doc__` and the `_instance` slot holding the singleton itself).
* Fallible Python code (attribute errors, compile-time schema errors) becomes
  `Except`.
* Python callables used as field transforms and class-body methods are given
  symbolically (`Func`, `Method`) together with evaluation functions, so that
  all data types stay decidable and executable.
-/

namespace Annotizer

/-! ## Association lists: the model of Python dicts -/

/-- First-match association-list lookup; the model of `d[k]` / `d.get(k)` on a
Python dict (keys inside one dict are unique, so first match is the match). -/
def alookup {κ α : Type} [DecidableEq κ] : List (κ × α) → κ → Option α
  | [], _ => none
  | (k', v) :: rest, k => if k' = k then some v else alookup rest k

/-- The model of `d[k] = v` on a Python dict: an existing key keeps its
position and gets the new value, a new key is appended at the end. -/
def dictUpdate {κ α : Type} [DecidableEq κ] : List (κ × α) → κ → α → List (κ × α)
  | [], k, v => [(k, v)]
  | (k', v') :: rest, k, v =>
      if k' = k then (k, v) :: rest else (k', v') :: dictUpdate rest k v

theorem alookup_dictUpdate_self {κ α : Type} [DecidableEq κ]
    (l : List (κ × α)) (k : κ) (v : α) : alookup (dictUpdate l k v) k = some v := by
  induction l with
  | nil => simp [alookup, dictUpdate]
  | cons p rest ih =>
      obtain ⟨k', v'⟩ := p
      by_cases h : k' = k
      · simp [alookup, dictUpdate, h]
      · simp [alookup, dictUpdate, h, ih]

theorem alookup_dictUpdate_ne {κ α : Type} [DecidableEq κ]
    (l : List (κ × α)) (k k₀ : κ) (v : α) (hne : k₀ ≠ k) :
    alookup (dictUpdate l k v) k₀ = alookup l k₀ := by
  have hne' : ¬k = k₀ := fun h => hne h.symm
  induction l with
  | nil => simp [alookup, dictUpdate, hne']
  | cons p rest ih =>
      obtain ⟨k', v'⟩ := p
      by_cases h : k' = k
      · subst h
        simp [alookup, dictUpdate, hne']
      · by_cases h0 : k' = k₀ <;> simp [alookup, dictUpdate, h, h0, hne, ih]

/-! ## `dict.fromkeys` and the first-seen deduplication order -/

/-- Worker for `dictFromKeys`: inserts each key into a dict, skipping keys
already present — exactly what `dict.fromkeys(iterable)` does, with the set of
already-inserted keys made explicit. -/
def dictFromKeysGo (seen : List String) : List String → List String
  | [] => []
  | k :: ks =>
      if k ∈ seen then dictFromKeysGo seen ks
      else k :: dictFromKeysGo (k :: seen) ks

/-- The key list of `dict.fromkeys(l)`: every key at the position of its first
appearance in `l`, later duplicates dropped (Python dicts iterate in insertion
order and re-inserting an existing key does not move it). -/
def dictFromKeys (l : List String) : List String := dictFromKeysGo [] l

/-- Specification-side rendering of "first-seen order, deduplicated by name":
keep each element's first occurrence, erase all later duplicates. -/
def dedupFirst : List String → List String
  | [] => []
  | k :: ks => k :: dedupFirst (ks.filter (fun x => x ≠ k))
termination_by l => l.length
decreasing_by
  simp only [List.length_cons]
  exact Nat.lt_succ_of_le (List.length_filter_le _ _)

theorem dictFromKeysGo_eq_dedupFirst (l : List String) :
    ∀ seen, dictFromKeysGo seen l = dedupFirst (l.filter (fun x => x ∉ seen)) := by
  induction l with
  | nil => intro seen; simp [dictFromKeysGo, dedupFirst]
  | cons k ks ih =>
      intro seen
      by_cases h : k ∈ seen
      · have : (k :: ks).filter (fun x => x ∉ seen) = ks.filter (fun x => x ∉ seen) := by
          simp [List.filter_cons, h]
        rw [this, dictFromKeysGo, if_pos h, ih]
      · have hstep : (k :: ks).filter (fun x => x ∉ seen)
            = k :: ks.filter (fun x => x ∉ seen) := by
          simp [List.filter_cons, h]
        rw [hstep, dictFromKeysGo, if_neg h, dedupFirst, ih (k :: seen)]
        congr 1
        rw [List.filter_filter]
        congr 1
        refine List.filter_congr ?_
        intro x _
        by_cases hx : x = k <;> simp [hx, h, List.mem_cons]

/-- `dict.fromkeys` realizes the first-seen deduplication order. -/
theorem dictFromKeys_eq_dedupFirst (l : List String) : dictFromKeys l = dedupFirst l := by
  have h := dictFromKeysGo_eq_dedupFirst l []
  simpa [dictFromKeys] using h

theorem mem_dedupFirst (l : List String) (x : String) : x ∈ dedupFirst l ↔ x ∈ l := by
  induction l using dedupFirst.induct with
  | case1 => simp [dedupFirst]
  | case2 k ks ih =>
      rw [dedupFirst]
      by_cases hx : x = k
      · simp [hx]
      · simp only [List.mem_cons, ih, List.mem_filter, hx, false_or]
        simp [hx]

theorem nodup_dedupFirst (l : List String) : (dedupFirst l).Nodup := by
  induction l using dedupFirst.induct with
  | case1 => simp [dedupFirst]
  | case2 k ks ih =>
      rw [dedupFirst]
      refine List.nodup_cons.mpr ⟨?_, ih⟩
      intro hk
      have := (mem_dedupFirst _ _).mp hk
      simp at this

/-! ## The merged chain maps of `Serializer._merge_bases`

`_merge_bases` builds an `AnnotationsChainMap` over the `__annotations__`
dicts of every class in the mro (most derived first) and a plain `ChainMap`
over their `__dict__` namespaces.  A chain map is modelled as the list of its
underlying maps, most derived first. -/

/-- `ChainMap.__getitem__` / `ChainMap.get`: the first map that has the key
provides the value. -/
def chainGet {α : Type} : List (List (String × α)) → String → Option α
  | [], _ => none
  | m :: ms, k =>
      match alookup m k with
      | some v => some v
      | none => chainGet ms k

/-- `AnnotationsChainMap.__iter__`:
`iter(dict.fromkeys(chain.from_iterable(self.maps)))` — all keys of all maps
in chain order, deduplicated by first insertion. -/
def chainIterKeys {α : Type} (maps : List (List (String × α))) : List String :=
  dictFromKeys (maps.flatMap (fun m => m.map Prod.fst))

/-- `fields.items()` on the `AnnotationsChainMap`: the `Mapping` mixin yields
`(k, self[k])` for every `k` produced by `__iter__`. -/
def chainItems {α : Type} (maps : List (List (String × α))) : List (String × α) :=
  (chainIterKeys maps).filterMap (fun k => (chainGet maps k).map (fun v => (k, v)))

/-- Specification-side reading of "the value is taken from the most-derived
class that declares that name": find the first map in mro order whose key set
contains the name, and read the value there. -/
def firstDeclaring {α : Type} : List (List (String × α)) → String → Option α
  | [], _ => none
  | m :: ms, k =>
      if k ∈ m.map Prod.fst then alookup m k else firstDeclaring ms k

theorem alookup_eq_none_iff {α : Type} (m : List (String × α)) (k : String) :
    alookup m k = none ↔ k ∉ m.map Prod.fst := by
  induction m with
  | nil => simp [alookup]
  | cons p rest ih =>
      obtain ⟨k', v⟩ := p
      by_cases h : k' = k
      · simp [alookup, h]
      · simp only [alookup, if_neg h, ih, List.map_cons, List.mem_cons]
        constructor
        · intro hcase
          intro hor
          rcases hor with hor | hor
          · exact h hor.symm
          · exact hcase hor
        · intro hcase hmem
          exact hcase (Or.inr hmem)

theorem chainGet_eq_firstDeclaring {α : Type}
    (maps : List (List (String × α))) (k : String) :
    chainGet maps k = firstDeclaring maps k := by
  induction maps with
  | nil => rfl
  | cons m ms ih =>
      rw [chainGet, firstDeclaring]
      by_cases h : k ∈ m.map Prod.fst
      · rw [if_pos h]
        cases halo : alookup m k with
        | none => exact absurd ((alookup_eq_none_iff m k).mp halo) (by simpa using h)
        | some v => rfl
      · rw [if_neg h]
        have : alookup m k = none := (alookup_eq_none_iff m k).mpr h
        rw [this, ih]

/-! ## Python values, callables and the missing-attribute singleton -/

/-- Symbolic universe for the plain Python callables that occur as field
transforms (`a: some_callable`).  Evaluated by `Func.run`. -/
inductive Func where
  | idF : Func
  | addInt : Int → Func
  | constStr : String → Func
deriving DecidableEq, Repr

/-- Symbolic universe for the functions defined in a serializer class body and
referenced by name (`a: 'getter_name'`).  A method takes the value it is bound
to by `__get__` (for this engine: the serializer class object, see
`Serializer._construct_fields`) and the whole source object.  Evaluated by
`Method.run`. -/
inductive Method where
  | selfM : Method
  | argM : Method
  | constStrM : String → Method
deriving DecidableEq, Repr

/-- Class-body namespace values (`__dict__` entries) as far as the engine
inspects them: alias strings, body-defined methods (descriptors whose
`__get__` binds them), the `Settings` configuration class with its `optional`
and `disable_accessor` name sets, the `Ellipsis` object, and arbitrary other
non-descriptor, non-callable values. -/
inductive NsVal where
  | ellipsisV : NsVal
  | strV : String → NsVal
  | methodV : Method → NsVal
  | settingsV : List String → List String → NsVal
  | otherV : String → NsVal
deriving DecidableEq, Repr

/-- Python runtime values as seen by the serialization engine: `None`,
integers, strings, the `HasNoAttribute` singleton (`marker`), attribute
objects, lists, and the dicts produced by `apply_getters` (whose keys are the
compiled aliases, which need not be strings). -/
inductive Value where
  | vnone : Value
  | intV : Int → Value
  | strVal : String → Value
  | marker : Value
  | obj : List (String × Value) → Value
  | vlist : List Value → Value
  | dictV : List (NsVal × Value) → Value

/-- `Func.run f v` is the result of calling the transform `f` on `v`. -/
def Func.run : Func → Value → Value
  | .idF, v => v
  | .addInt n, v =>
      match v with
      | .intV m => .intV (m + n)
      | w => w
  | .constStr s, _ => .strVal s

/-- `Method.run m s o` calls the class-body method `m` with `__get__`-bound
first argument `s` and the whole source object `o`. -/
def Method.run : Method → Value → Value → Value
  | .selfM, s, _ => s
  | .argM, _, o => o
  | .constStrM str, _, _ => .strVal str

/-- `getattr(v, name)` without a default, as `Option`.  Attribute objects carry
their attributes explicitly.  The `HasNoAttribute` singleton is an ordinary
Python object of a class whose body is `"""Singleton class."""` with the
class attribute `_instance` holding the singleton itself, so those two
attributes resolve on the marker; other values expose no modelled
attributes. -/
def lookupAttr : Value → String → Option Value
  | .obj attrs, name => alookup attrs name
  | .marker, name =>
      if name = "__doc__" then some (.strVal "Singleton class.")
      else if name = "_instance" then some .marker
      else none
  | _, _ => none

/-- `getattr(v, name, dflt)`: lookup with a default. -/
def getattrD (v : Value) (name : String) (dflt : Value) : Value :=
  match lookupAttr v name with
  | some w => w
  | none => dflt

/-- Evaluation-time failures: a missing attribute on a strict lookup
(`AttributeError`) or applying sequence iteration to a non-sequence
(`TypeError`). -/
inductive RunErr where
  | attributeError : String → RunErr
  | typeError : String → RunErr
deriving DecidableEq, Repr

/-- Worker of `splitDot`, carrying the current piece. -/
def splitDotGo (cur : List Char) : List Char → List String
  | [] => [String.mk cur]
  | c :: rest =>
      if c = '.' then String.mk cur :: splitDotGo [] rest
      else splitDotGo (cur ++ [c]) rest

/-- `attributes.split(".")`: split at every dot, keeping empty pieces, as
Python's `str.split` with an explicit separator does. -/
def splitDot (s : String) : List String := splitDotGo [] s.data

/-- `operator.attrgetter(path)(v)`: split the dotted path and walk it with
strict `getattr`, raising `AttributeError` at the first missing segment. -/
def attrgetterRun (path : String) (v : Value) : Except RunErr Value :=
  (splitDot path).foldlM
    (fun o n =>
      match lookupAttr o n with
      | some w => Except.ok w
      | none => Except.error (RunErr.attributeError n)) v

/-- `utils.get_attr(path)` (the primed coroutine, per call): split the dotted
path; a single segment is `getattr(obj, attr, marker)`; several segments are
walked by repeatedly applying `getattr(obj, attr, marker)` to whatever the
previous step produced — including the marker itself. -/
def getAttrRun (path : String) (v : Value) : Value :=
  match splitDot path with
  | [a] => getattrD v a Value.marker
  | names => names.foldl (fun o n => getattrD o n Value.marker) v

/-! ## The accessor compiler `utils.construct_accessor` -/

/-- The inner `valid` predicate of `construct_accessor`: a segment is valid if
it is non-empty and not composed entirely of underscores
(`string and not string == len(string) * "_"`). -/
def validSeg (s : List Char) : Bool :=
  !s.isEmpty && !(s == List.replicate s.length '_')

/-- `attribute.partition("__")` on the character list: split at the first
occurrence of the two-character delimiter into (before, delimiter, after);
when no delimiter occurs the result is (attribute, "", ""). -/
def partitionDunder : List Char → List Char × List Char × List Char
  | [] => ([], [], [])
  | [c] => ([c], [], [])
  | c₁ :: c₂ :: rest =>
      if c₁ = '_' ∧ c₂ = '_' then ([], ['_', '_'], rest)
      else
        let p := partitionDunder (c₂ :: rest)
        (c₁ :: p.1, p.2.1, p.2.2)

theorem partitionDunder_len (l : List Char) :
    l.length = (partitionDunder l).1.length + (partitionDunder l).2.1.length
      + (partitionDunder l).2.2.length
    ∧ ((partitionDunder l).2.1 = [] → (partitionDunder l).2.2 = []) := by
  induction l using partitionDunder.induct with
  | case1 => simp [partitionDunder]
  | case2 c => simp [partitionDunder]
  | case3 c₁ c₂ rest h =>
      rw [partitionDunder, if_pos h]
      simp +arith
  | case4 c₁ c₂ rest h ih =>
      rw [partitionDunder, if_neg h]
      simp only [List.length_cons]
      obtain ⟨ih1, ih2⟩ := ih
      simp only [List.length_cons] at ih1
      exact ⟨by omega, ih2⟩

/-- Worker of `construct_accessor` on character lists, carrying the `accessor`
accumulator of the Python recursion (the parameter named `attribute` in the
source is called `attr` here because `attribute` is reserved in Lean). -/
def constructAccessorL (attr accum : List Char) : List Char :=
  let p := partitionDunder attr
  if validSeg p.1 && validSeg p.2.2 then
    constructAccessorL p.2.2 (accum ++ p.1 ++ ['.'])
  else if validSeg p.2.2 then
    constructAccessorL p.2.2 (accum ++ p.1 ++ p.2.1)
  else
    accum ++ p.1 ++ p.2.1 ++ p.2.2
termination_by attr.length
decreasing_by
  all_goals
    rename_i hv
    have hp : p = partitionDunder attr := rfl
    have hlen := (partitionDunder_len attr).1
    have himp := (partitionDunder_len attr).2
    rw [← hp] at hlen himp
    have hne : p.2.2 ≠ [] := by
      intro hnil
      simp [validSeg, hnil] at hv
    have hd : p.2.1 ≠ [] := fun hnil => hne (himp hnil)
    have hpos : 0 < p.2.1.length := List.length_pos.mpr hd
    rw [← hp]
    omega

/-- `utils.construct_accessor(attribute)`: expand the double-underscore path
syntax into a dotted attribute path. -/
def construct_accessor (attr : String) : String :=
  String.mk (constructAccessorL attr.data [])

/-! ## Transform specifiers and compiled fields

The annotation value declared for a field (`Spec`), the compiled field triple
`(field_alias, getter, callable_)` stored in `parsed_fields` (`FieldC`), and
the compiled transform slot (`Transform`) are mutually recursive, because a
nested serializer instance or serializer type used as a specifier carries its
own compiled field list. -/

mutual

/-- A transform specifier: the annotation value attached to a declared field
name.  `ellipsisS` is the pass-through `...`; `strS` names a class-body
method; `funcS` is a plain callable; `serInstS` is a nested serializer
instance (carrying its `many` flag and its selected `_fields` list);
`serTypeS` is a nested serializer subclass (carrying its class-level compiled
field list, which an instantiation with default arguments selects in full);
`otherS` is any other, non-callable value. -/
inductive Spec where
  | ellipsisS : Spec
  | strS : String → Spec
  | funcS : Func → Spec
  | serInstS : Bool → List FieldC → Spec
  | serTypeS : List FieldC → Spec
  | otherS : String → Spec

/-- A compiled field, i.e. one value of `parsed_fields`:
`(field_alias, getter, callable_)`. -/
inductive FieldC where
  | mk : NsVal → Getter → Option Transform → FieldC

/-- The compiled `callable_` slot after `_construct_fields` has rewritten it:
a plain callable kept as post-retrieval transform, or the primed
`apply_getters(...)` / `apply_getters_many(...)` coroutine of a nested
serializer. -/
inductive Transform where
  | funcT : Func → Transform
  | nestedSingleT : List FieldC → Transform
  | nestedManyT : List FieldC → Transform

/-- A compiled getter: `attrgetter(getter_name)` for plain fields,
`get_attr(getter_name)` for optional fields, or the `__get__`-bound class-body
method that replaces the accessor for a string specifier (carrying the value
the method was bound to, i.e. the serializer class object `cls`). -/
inductive Getter where
  | strictG : String → Getter
  | tolerantG : String → Getter
  | methodG : Method → Value → Getter

end

/-- The output alias of a compiled field. -/
def FieldC.fieldAlias : FieldC → NsVal
  | .mk a _ _ => a

/-- The getter of a compiled field. -/
def FieldC.getter : FieldC → Getter
  | .mk _ g _ => g

/-- The compiled transform slot of a compiled field. -/
def FieldC.transform : FieldC → Option Transform
  | .mk _ _ t => t

/-- Run a compiled getter on a source object: `getter(object_)` inside
`apply_getters`. -/
def runGetter : Getter → Value → Except RunErr Value
  | .strictG path, v => attrgetterRun path v
  | .tolerantG path, v => .ok (getAttrRun path v)
  | .methodG m s, v => .ok (Method.run m s v)

/-! ## Per-object evaluation: `apply_getters` / `apply_getters_many` -/

mutual

/-- The loop body of `utils.apply_getters(fields)` applied to one object,
with the partially built result dict `ser` made explicit: for each field in
order, run the getter; a result that is the `HasNoAttribute` singleton skips
the field, otherwise the alias is bound to the raw value (`callable_` being
`None`) or to the transformed value. -/
def runFieldsGo (fields : List FieldC) (object : Value) (ser : List (NsVal × Value)) :
    Except RunErr (List (NsVal × Value)) :=
  match fields with
  | [] => .ok ser
  | f :: rest =>
      match runField f object with
      | .error e => .error e
      | .ok none => runFieldsGo rest object ser
      | .ok (some (a, v)) => runFieldsGo rest object (dictUpdate ser a v)
termination_by (sizeOf fields, 0)
decreasing_by all_goals (simp_wf; omega)

/-- One iteration of the `apply_getters` loop: `none` means the field is
skipped because its getter produced the missing-value singleton. -/
def runField (f : FieldC) (object : Value) : Except RunErr (Option (NsVal × Value)) :=
  match f with
  | .mk a g t =>
      match runGetter g object with
      | .error e => .error e
      | .ok .marker => .ok none
      | .ok v =>
          match t with
          | none => .ok (some (a, v))
          | some tr =>
              match runTransform tr v with
              | .error e => .error e
              | .ok w => .ok (some (a, w))
termination_by (sizeOf f, 0)
decreasing_by all_goals (simp_wf; omega)

/-- Apply a compiled transform to a retrieved value.  A nested single
serializer is the primed `apply_getters(...)` send function producing a dict;
a nested many serializer is `apply_getters_many(...)`, a list comprehension
over the value, raising `TypeError` when the value is not iterable. -/
def runTransform (tr : Transform) (v : Value) : Except RunErr Value :=
  match tr with
  | .funcT f => .ok (Func.run f v)
  | .nestedSingleT nf =>
      match runFieldsGo nf v [] with
      | .error e => .error e
      | .ok d => .ok (.dictV d)
  | .nestedManyT nf =>
      match v with
      | .vlist xs =>
          match runManyList nf xs with
          | .error e => .error e
          | .ok ds => .ok (.vlist ds)
      | _ => .error (.typeError "not iterable")
termination_by (sizeOf tr, 0)
decreasing_by all_goals (simp_wf; omega)

/-- `[getter(obj) for obj in objects]` of `apply_getters_many`. -/
def runManyList (nf : List FieldC) (xs : List Value) : Except RunErr (List Value) :=
  match xs with
  | [] => .ok []
  | x :: rest =>
      match runFieldsGo nf x [] with
      | .error e => .error e
      | .ok d =>
          match runManyList nf rest with
          | .error e => .error e
          | .ok ds => .ok (.dictV d :: ds)
termination_by (sizeOf nf, xs.length + 1)
decreasing_by all_goals (simp_wf; omega)

end

/-- `apply_getters(fields)(object_)`: one full per-object evaluation starting
from the empty result dict. -/
def applyGetters (fields : List FieldC) (object : Value) :
    Except RunErr (List (NsVal × Value)) :=
  runFieldsGo fields object []

/-! ## The field compiler `Serializer._construct_fields` -/

/-- Compile-time schema failures raised by `_construct_fields`:
`MethodError` and `FieldError` of `exceptions.py`. -/
inductive CompileErr where
  | methodErr : String → CompileErr
  | fieldErr : String → CompileErr
deriving DecidableEq, Repr

/-- `getattr(namespace.get("Settings"), "optional", set())`: the optional
name set, empty when there is no `Settings` class (or it lacks the slot). -/
def settingsOptional (namespaces : List (List (String × NsVal))) : List String :=
  match chainGet namespaces "Settings" with
  | some (.settingsV opt _) => opt
  | _ => []

/-- `getattr(namespace.get("Settings"), "disable_accessor", set())`. -/
def settingsDisable (namespaces : List (List (String × NsVal))) : List String :=
  match chainGet namespaces "Settings" with
  | some (.settingsV _ dis) => dis
  | _ => []

/-- The `getter_name` computed for a field: the field name itself when listed
in `disable_accessor`, otherwise the expanded accessor path. -/
def getterNameFor (dis : List String) (fieldName : String) : String :=
  if fieldName ∈ dis then fieldName else construct_accessor fieldName

/-- The loop body of `_construct_fields` for one `(field_name, callable_)`
item: compute the alias and the accessor, then dispatch on the specifier,
producing the compiled triple or the taxonomy error the source raises.
`clsV` is the serializer class object `cls` which `__get__` binds string-named
methods to. -/
def compileOneField (clsV : Value) (namespaces : List (List (String × NsVal)))
    (opt dis : List String) (fieldName : String) (spec : Spec) :
    Except CompileErr FieldC :=
  let fieldAlias := (chainGet namespaces fieldName).getD (NsVal.strV fieldName)
  let getterName := getterNameFor dis fieldName
  let getter0 : Getter :=
    if fieldName ∈ opt then .tolerantG getterName else .strictG getterName
  match spec with
  | .ellipsisS => .ok (.mk fieldAlias getter0 none)
  | .serInstS many nf =>
      .ok (.mk fieldAlias getter0 (some (if many then .nestedManyT nf else .nestedSingleT nf)))
  | .serTypeS nf => .ok (.mk fieldAlias getter0 (some (.nestedSingleT nf)))
  | .strS mname =>
      match chainGet namespaces mname with
      | none =>
          .error (.methodErr ("Missing '" ++ mname ++ "' method in the serializer body"))
      | some (.methodV m) => .ok (.mk fieldAlias (.methodG m clsV) none)
      | some _ =>
          .error (.methodErr ("'" ++ mname ++ "' is not a valid getter method"))
  | .funcS f => .ok (.mk fieldAlias getter0 (some (.funcT f)))
  | .otherS tag =>
      .error (.fieldErr ("Invalid callable for the field: " ++ fieldName ++ ": " ++ tag))

/-- The loop of `_construct_fields` over the merged `fields.items()`, with
the `parsed_fields` dict accumulator explicit. -/
def constructFieldsGo (clsV : Value) (namespaces : List (List (String × NsVal)))
    (opt dis : List String) :
    List (String × Spec) → List (String × FieldC) → Except CompileErr (List (String × FieldC))
  | [], parsed => .ok parsed
  | (fieldName, spec) :: rest, parsed =>
      match compileOneField clsV namespaces opt dis fieldName spec with
      | .error e => .error e
      | .ok fc => constructFieldsGo clsV namespaces opt dis rest (dictUpdate parsed fieldName fc)

/-- `Serializer._construct_fields(fields, namespace)`: read the `Settings`
options from the merged namespace and compile every merged field in order. -/
def constructFields (clsV : Value) (fields : List (String × Spec))
    (namespaces : List (List (String × NsVal))) : Except CompileErr (List (String × FieldC)) :=
  constructFieldsGo clsV namespaces (settingsOptional namespaces) (settingsDisable namespaces)
    fields []

/-! ## Schema classes and `Serializer._merge_bases` -/

/-- One class of an mro as the merge pass sees it: its `__annotations__` dict
(field name → transform specifier, in declaration order) and its `__dict__`
namespace.  The methods of the `Serializer` base itself are elided from its
namespace model. -/
structure ClassBody where
  annot : List (String × Spec)
  ns : List (String × NsVal)

/-- `cls._merge_bases()` followed by `cls._construct_fields(...)` — the work
done by `__init_subclass__` for a newly created schema type whose
`cls.mro()` (without `object`) is `mro`, most derived first: merge the
annotation dicts through `AnnotationsChainMap`, merge the namespaces through
`ChainMap`, and compile. -/
def compileSchema (clsV : Value) (mro : List ClassBody) :
    Except CompileErr (List (String × FieldC)) :=
  constructFields clsV (chainItems (mro.map ClassBody.annot)) (mro.map ClassBody.ns)

/-! ## Engine instances: `Serializer.__init__` and `Serializer.serialize` -/

/-- Python truthiness (`if self._serialized_data:` / `if unknown_fields:`) for
the values the engine stores: `None`, zero, and empty strings / lists / dicts
are falsy; everything else (including the marker, an ordinary object) is
truthy. -/
def truthy : Value → Bool
  | .vnone => false
  | .intV n => n != 0
  | .strVal s => !s.isEmpty
  | .marker => true
  | .obj _ => true
  | .vlist xs => !xs.isEmpty
  | .dictV es => !es.isEmpty

/-- An engine instance: the held data, the `many` / `to_json` flags, the
selected `_fields` list, and the memoized `_serialized_data` slot
(initialised to `None`).  `computeCount` is ghost instrumentation, not source
state: it counts how many times `serialize` has actually recomputed (the
source has no such counter; it makes "without recomputation" provable). -/
structure SerInstance where
  data : Value
  many : Bool
  toJson : Bool
  selFields : List FieldC
  serializedData : Value
  computeCount : Nat

/-- The construction failure of `Serializer.__init__`: the `FieldError`
naming the unknown requested fields. -/
inductive InitErr where
  | unknownFieldsErr : List String → InitErr
deriving DecidableEq, Repr

/-- `Serializer.__init__(data, fields, many, to_json)` for a schema type
whose compiled `get_fields` dict is `classFields`: start from all compiled
fields; when a `fields` subset is requested, fail on unknown names
(`set(fields) - self.get_fields.keys()`), otherwise keep, in schema order,
exactly the compiled fields whose name occurs in the request. -/
def serializerInit (classFields : List (String × FieldC)) (data : Value)
    (fieldsArg : Option (List String)) (many toJson : Bool) :
    Except InitErr SerInstance :=
  let base : SerInstance :=
    ⟨data, many, toJson, classFields.map Prod.snd, Value.vnone, 0⟩
  match fieldsArg with
  | none => .ok base
  | some fs =>
      let keys := classFields.map Prod.fst
      let unknown := dedupFirst (fs.filter (fun f => !(keys.contains f)))
      if unknown.isEmpty then
        .ok { base with
          selFields := classFields.filterMap
            (fun p => if fs.contains p.1 then some p.2 else none) }
      else .error (.unknownFieldsErr unknown)

mutual

/-- A fueled model of `json.dumps(data, default=getter)`: a standard
recursive JSON encoder whose fallback hook runs `apply_getters` on any value
it cannot natively encode and recurses into the resulting dict.  The fuel
models the encoder's recursion guard (Python's circular-reference check /
recursion limit); it is decremented exactly when the hook fires. -/
def dumpsModel (fuel : Nat) (flds : List FieldC) (v : Value) : Except RunErr String :=
  match v with
  | .vnone => .ok "null"
  | .intV n => .ok (toString n)
  | .strVal s => .ok ("\"" ++ s ++ "\"")
  | .vlist xs =>
      match dumpsSeq fuel flds xs with
      | .error e => .error e
      | .ok parts => .ok ("[" ++ String.intercalate ", " parts ++ "]")
  | .dictV es =>
      match dumpsEntries fuel flds es with
      | .error e => .error e
      | .ok parts => .ok ("\x7b" ++ String.intercalate ", " parts ++ "\x7d")
  | .obj attrs =>
      match fuel with
      | 0 => .error (.typeError "circular reference")
      | fuel' + 1 =>
          match applyGetters flds (.obj attrs) with
          | .error e => .error e
          | .ok d => dumpsModel fuel' flds (.dictV d)
  | .marker =>
      match fuel with
      | 0 => .error (.typeError "circular reference")
      | fuel' + 1 =>
          match applyGetters flds .marker with
          | .error e => .error e
          | .ok d => dumpsModel fuel' flds (.dictV d)
termination_by (fuel, sizeOf v)
decreasing_by all_goals (simp_wf; omega)

/-- Encode the elements of a JSON array. -/
def dumpsSeq (fuel : Nat) (flds : List FieldC) (xs : List Value) :
    Except RunErr (List String) :=
  match xs with
  | [] => .ok []
  | x :: rest =>
      match dumpsModel fuel flds x with
      | .error e => .error e
      | .ok s =>
          match dumpsSeq fuel flds rest with
          | .error e => .error e
          | .ok ss => .ok (s :: ss)
termination_by (fuel, sizeOf xs)
decreasing_by all_goals (simp_wf; omega)

/-- Encode the members of a JSON object; non-string keys are a `TypeError`
(as in `json.dumps` without `skipkeys`). -/
def dumpsEntries (fuel : Nat) (flds : List FieldC) (es : List (NsVal × Value)) :
    Except RunErr (List String) :=
  match es with
  | [] => .ok []
  | (k, w) :: rest =>
      match k with
      | .strV s =>
          match dumpsModel fuel flds w with
          | .error e => .error e
          | .ok sv =>
              match dumpsEntries fuel flds rest with
              | .error e => .error e
              | .ok ss => .ok (("\"" ++ s ++ "\": " ++ sv) :: ss)
      | _ => .error (.typeError "keys must be str")
termination_by (fuel, sizeOf es)
decreasing_by all_goals (simp_wf; omega)

end

/-- The recursion budget handed to the modelled JSON encoder (standing for
CPython's recursion limit). -/
def dumpsFuel : Nat := 1000

/-- The computation performed by the `serialize` property when the memo slot
is falsy, as a function of the instance attributes it reads:
`dumps(self.data, default=getter)` in `to_json` mode,
`list(map(getter, self.data))` in `many` mode (a `TypeError` when the held
data is not a sequence), and `getter(self.data)` otherwise. -/
def computeCore (toJson many : Bool) (flds : List FieldC) (data : Value) :
    Except RunErr Value :=
  if toJson then
    match dumpsModel dumpsFuel flds data with
    | .error e => .error e
    | .ok s => .ok (.strVal s)
  else if many then
    match data with
    | .vlist xs =>
        match runManyList flds xs with
        | .error e => .error e
        | .ok ds => .ok (.vlist ds)
    | _ => .error (.typeError "not iterable")
  else
    match applyGetters flds data with
    | .error e => .error e
    | .ok d => .ok (.dictV d)

/-- `computeCore` applied to an engine instance's own attributes. -/
def computeSer (inst : SerInstance) : Except RunErr Value :=
  computeCore inst.toJson inst.many inst.selFields inst.data

/-- The `serialize` property: return the memoized `_serialized_data` when it
is truthy, otherwise compute, store and return.  The pair result carries the
possibly updated instance state (the model of the in-place attribute
assignment). -/
def serialize (inst : SerInstance) : Except RunErr (Value × SerInstance) :=
  if truthy inst.serializedData then .ok (inst.serializedData, inst)
  else
    match computeSer inst with
    | .error e => .error e
    | .ok r =>
        .ok (r, { inst with serializedData := r, computeCount := inst.computeCount + 1 })

/-! ## The schema factory `make_serializer` -/

/-- One entry of the `bases` tuple passed to the factory: whether this base
`issubclass(base, Serializer)`, and the class bodies it contributes to the
mro of the created class (most derived first). -/
structure BaseCls where
  isSerializer : Bool
  mroBodies : List ClassBody

/-- The `Serializer` root class as a factory default base: a serializer
subclass whose body declares no fields (its methods are elided). -/
def serializerBase : BaseCls := ⟨true, [⟨[], []⟩]⟩

/-- The caller-supplied `namespace` dict of `make_serializer`, viewed with
its (possible) `"__annotations__"` key separated from the ordinary entries. -/
structure PyNamespace where
  entries : List (String × NsVal)
  annMapping : Option (List (String × Spec))

/-- The failures of `make_serializer`: `FieldIdentifierError` for bad names,
`SerializerError` when no base is a serializer subclass, and the propagated
compile errors of `_construct_fields` (raised while `new_class` triggers
`__init_subclass__`). -/
inductive FactoryErr where
  | identErr : String → FactoryErr
  | baseErr : String → FactoryErr
  | compileErr : CompileErr → FactoryErr
deriving DecidableEq, Repr

/-- ASCII model of `str.isidentifier()`. -/
def pyIsIdentifier (s : String) : Bool :=
  match s.data with
  | [] => false
  | c :: rest => (c.isAlpha || c = '_') && rest.all (fun d => d.isAlphanum || d = '_')

/-- The Python keyword list consulted by `keyword.iskeyword`. -/
def pyKeywords : List String :=
  ["False", "None", "True", "and", "as", "assert", "async", "await",
   "break", "class", "continue", "def", "del", "elif", "else", "except",
   "finally", "for", "from", "global", "if", "import", "in", "is", "lambda",
   "nonlocal", "not", "or", "pass", "raise", "return", "try", "while",
   "with", "yield"]

/-- The keys iterated by the factory's validation loop
`chain(fields, namespace)`. -/
def factoryKeys (fields : List (String × Spec)) (ns : PyNamespace) : List String :=
  fields.map Prod.fst ++ ns.entries.map Prod.fst ++
    (match ns.annMapping with
     | some _ => ["__annotations__"]
     | none => [])

/-- `make_serializer(name, bases, fields, namespace, **serializer_settings)`.
Defaults are applied; when keyword settings are given, a fresh `Settings`
class built from them is inserted into the caller's namespace dict; every
field / namespace key must be a valid non-keyword identifier; at least one
base must be a serializer subclass; the namespace's `"__annotations__"` key
is (re)bound to the fields mapping; finally `new_class` builds the type,
whose `__init_subclass__` compiles the schema.  The result carries the final
state of the caller-supplied namespace (the model of the in-place mutation)
and the compiled field dict of the created class.  `clsV` stands for the
created class object (used for method binding). -/
def makeSerializer (clsV : Value) (name : String) (bases : Option (List BaseCls))
    (fields : Option (List (String × Spec))) (nsArg : Option PyNamespace)
    (settings : Option (List String × List String)) :
    Except FactoryErr (PyNamespace × List (String × FieldC)) :=
  let bases := bases.getD [serializerBase]
  let fields := fields.getD []
  let ns0 := nsArg.getD ⟨[], none⟩
  let ns1 : PyNamespace :=
    match settings with
    | some (opt, dis) =>
        { ns0 with entries := dictUpdate ns0.entries "Settings" (NsVal.settingsV opt dis) }
    | none => ns0
  match (factoryKeys fields ns1).find?
      (fun k => !(pyIsIdentifier k) || pyKeywords.contains k) with
  | some k =>
      if pyIsIdentifier k then
        .error (.identErr ("Field names must not be python keywords: " ++ k))
      else
        .error (.identErr ("Field names must be valid identifiers: " ++ k))
  | none =>
      if bases.any BaseCls.isSerializer then
        let ns2 : PyNamespace := { ns1 with annMapping := some fields }
        let newBody : ClassBody := ⟨fields, ns2.entries⟩
        let mro := newBody :: bases.flatMap BaseCls.mroBodies
        match compileSchema clsV mro with
        | .error e => .error (.compileErr e)
        | .ok compiled => .ok (ns2, compiled)
      else
        .error (.baseErr "At least one base class needs to be the subclass of the 'Serializer'")

/-! ## Specification-side definitions used to state the claims -/

/-- Worker of `specShortCircuitGet`: the walk the specification describes —
substitute the marker for the first segment that fails to resolve and stop
there. -/
def specShortCircuitGo : List String → Value → Value
  | [], v => v
  | n :: rest, v =>
      match lookupAttr v n with
      | some w => specShortCircuitGo rest w
      | none => Value.marker

/-- The fault-tolerant accessor as claimed by the specification: walk the
dotted path, substitute the missing marker for the first failing segment and
short-circuit all remaining segments. -/
def specShortCircuitGet (path : String) (v : Value) : Value :=
  specShortCircuitGo (splitDot path) v

/-- Whether a namespace binding is itself a transform-specifier form in the
sense of the claim about aliases: a callable or the pass-through sentinel.
(The claim would make such bindings fall back to the field name; plain
strings are what alias bindings are, so they do not count.) -/
def isSpecifierForm : NsVal → Bool
  | .ellipsisV => true
  | .methodV _ => true
  | _ => false

/-- The alias rule as the claim states it: the namespace binding when one
exists and is not itself a transform-specifier form, the field name
otherwise. -/
def claimAlias (namespaces : List (List (String × NsVal))) (name : String) : NsVal :=
  match chainGet namespaces name with
  | some v => if isSpecifierForm v then .strV name else v
  | none => .strV name

/-! ## Helper lemmas about the field compiler -/

theorem alookup_mem {κ α : Type} [DecidableEq κ] (l : List (κ × α)) (k : κ) (v : α)
    (h : alookup l k = some v) : (k, v) ∈ l := by
  induction l with
  | nil => simp [alookup] at h
  | cons p rest ih =>
      obtain ⟨k', v'⟩ := p
      by_cases hk : k' = k
      · subst hk
        simp [alookup] at h
        simp [h]
      · simp only [alookup, if_neg hk] at h
        exact List.mem_cons_of_mem _ (ih h)

theorem constructFieldsGo_ok_compiles (clsV : Value)
    (nss : List (List (String × NsVal))) (opt dis : List String) :
    ∀ (ann : List (String × Spec)) (acc parsed : List (String × FieldC)),
      constructFieldsGo clsV nss opt dis ann acc = .ok parsed →
      ∀ name spec, (name, spec) ∈ ann →
        ∃ fc, compileOneField clsV nss opt dis name spec = .ok fc := by
  intro ann
  induction ann with
  | nil => intro acc parsed _ name spec hmem; simp at hmem
  | cons p rest ih =>
      obtain ⟨n0, s0⟩ := p
      intro acc parsed h name spec hmem
      rw [constructFieldsGo] at h
      rcases hcomp : compileOneField clsV nss opt dis n0 s0 with e | f0
      · rw [hcomp] at h; exact absurd h (by simp)
      · rw [hcomp] at h
        rcases List.mem_cons.mp hmem with heq | hrest
        · injection heq with h1 h2
          subst h1; subst h2
          exact ⟨f0, hcomp⟩
        · exact ih _ _ h name spec hrest

theorem constructFieldsGo_preserves (clsV : Value)
    (nss : List (List (String × NsVal))) (opt dis : List String) :
    ∀ (ann : List (String × Spec)) (acc parsed : List (String × FieldC)),
      constructFieldsGo clsV nss opt dis ann acc = .ok parsed →
      ∀ k, k ∉ ann.map Prod.fst → alookup parsed k = alookup acc k := by
  intro ann
  induction ann with
  | nil =>
      intro acc parsed h k _
      rw [constructFieldsGo] at h
      cases h
      rfl
  | cons p rest ih =>
      obtain ⟨n0, s0⟩ := p
      intro acc parsed h k hk
      rw [constructFieldsGo] at h
      rcases hcomp : compileOneField clsV nss opt dis n0 s0 with e | f0
      · rw [hcomp] at h; exact absurd h (by simp)
      · rw [hcomp] at h
        have hk0 : k ≠ n0 := by
          intro hEq
          exact hk (by simp [hEq])
        have hkrest : k ∉ rest.map Prod.fst := by
          intro hinr
          exact hk (by simp [hinr])
        rw [ih _ _ h k hkrest, alookup_dictUpdate_ne _ _ _ _ hk0]

theorem constructFieldsGo_lookup (clsV : Value)
    (nss : List (List (String × NsVal))) (opt dis : List String) :
    ∀ (ann : List (String × Spec)) (acc parsed : List (String × FieldC)),
      constructFieldsGo clsV nss opt dis ann acc = .ok parsed →
      (ann.map Prod.fst).Nodup →
      ∀ name spec, (name, spec) ∈ ann →
        ∃ fc, compileOneField clsV nss opt dis name spec = .ok fc ∧
          alookup parsed name = some fc := by
  intro ann
  induction ann with
  | nil => intro acc parsed _ _ name spec hmem; simp at hmem
  | cons p rest ih =>
      obtain ⟨n0, s0⟩ := p
      intro acc parsed h hnd name spec hmem
      rw [constructFieldsGo] at h
      rcases hcomp : compileOneField clsV nss opt dis n0 s0 with e | f0
      · rw [hcomp] at h; exact absurd h (by simp)
      · rw [hcomp] at h
        rcases List.mem_cons.mp hmem with heq | hrest
        · injection heq with h1 h2
          subst h1; subst h2
          refine ⟨f0, hcomp, ?_⟩
          have hnotin : name ∉ rest.map Prod.fst := by
            have := List.nodup_cons.mp hnd
            simpa using this.1
          rw [constructFieldsGo_preserves clsV nss opt dis rest _ _ h name hnotin]
          exact alookup_dictUpdate_self _ _ _
        · exact ih _ _ h (List.nodup_cons.mp hnd).2 name spec hrest

theorem compileOneField_fieldAlias (clsV : Value)
    (nss : List (List (String × NsVal))) (opt dis : List String)
    (name : String) (spec : Spec) (fc : FieldC)
    (h : compileOneField clsV nss opt dis name spec = .ok fc) :
    fc.fieldAlias = (chainGet nss name).getD (NsVal.strV name) := by
  cases spec with
  | ellipsisS => simp [compileOneField] at h; rw [← h]; rfl
  | funcS f => simp [compileOneField] at h; rw [← h]; rfl
  | serInstS many nf => simp [compileOneField] at h; rw [← h]; rfl
  | serTypeS nf => simp [compileOneField] at h; rw [← h]; rfl
  | otherS tag => simp [compileOneField] at h
  | strS mname =>
      rw [compileOneField] at h
      rcases hget : chainGet nss mname with _ | nv
      · rw [hget] at h; exact absurd h (by simp)
      · rw [hget] at h
        cases nv with
        | methodV m =>
            simp at h
            rw [← h]
            rfl
        | ellipsisV => exact absurd h (by simp)
        | strV s => exact absurd h (by simp)
        | settingsV o d => exact absurd h (by simp)
        | otherV t => exact absurd h (by simp)

/-! ## Helper lemmas about per-object evaluation -/

theorem runField_some_alias (f : FieldC) (object : Value) (a : NsVal) (v : Value)
    (h : runField f object = .ok (some (a, v))) : a = f.fieldAlias := by
  obtain ⟨a0, g0, t0⟩ := f
  rw [runField] at h
  split at h
  · exact absurd h (by simp)
  · exact absurd h (by simp)
  · split at h
    · simp at h
      simp [FieldC.fieldAlias, h.1]
    · split at h
      · exact absurd h (by simp)
      · simp at h
        simp [FieldC.fieldAlias, h.1]

theorem runFieldsGo_error_mem (object : Value) :
    ∀ (flds : List FieldC) (fc : FieldC) (e : RunErr),
      fc ∈ flds → runField fc object = .error e →
      ∀ ser, ∃ e', runFieldsGo flds object ser = .error e' := by
  intro flds
  induction flds with
  | nil => intro fc e hm; simp at hm
  | cons f rest ih =>
      intro fc e hm hf ser
      rw [runFieldsGo]
      rcases List.mem_cons.mp hm with heq | hrest
      · subst heq
        rw [hf]
        exact ⟨e, rfl⟩
      · rcases hrf : runField f object with e0 | ov
        · exact ⟨e0, rfl⟩
        · match ov with
          | none => exact ih fc e hrest hf ser
          | some (a, v) => exact ih fc e hrest hf (dictUpdate ser a v)

theorem runFieldsGo_alias_preserve (object : Value) (a : NsVal) :
    ∀ (flds : List FieldC) (ser res : List (NsVal × Value)),
      (∀ fc ∈ flds, fc.fieldAlias ≠ a) →
      runFieldsGo flds object ser = .ok res →
      alookup res a = alookup ser a := by
  intro flds
  induction flds with
  | nil =>
      intro ser res _ h
      rw [runFieldsGo] at h
      cases h
      rfl
  | cons f rest ih =>
      intro ser res hna h
      rw [runFieldsGo] at h
      rcases hrf : runField f object with e0 | ov
      · rw [hrf] at h; exact absurd h (by simp)
      · rw [hrf] at h
        match ov with
        | none => exact ih ser res (fun fc hm => hna fc (List.mem_cons_of_mem _ hm)) h
        | some (a', v) =>
            have ha' : a' = f.fieldAlias := runField_some_alias f object a' v hrf
            have hne : a ≠ a' := by
              rw [ha']
              exact fun hEq => hna f (List.mem_cons_self f rest) hEq.symm
            rw [ih _ res (fun fc hm => hna fc (List.mem_cons_of_mem _ hm)) h,
              alookup_dictUpdate_ne _ _ _ _ hne]

theorem runFieldsGo_skip_absent (object : Value) :
    ∀ (flds : List FieldC) (fc : FieldC) (ser res : List (NsVal × Value)),
      fc ∈ flds →
      (flds.map FieldC.fieldAlias).Nodup →
      runField fc object = .ok none →
      runFieldsGo flds object ser = .ok res →
      alookup res fc.fieldAlias = alookup ser fc.fieldAlias := by
  intro flds
  induction flds with
  | nil => intro fc ser res hm; simp at hm
  | cons f rest ih =>
      intro fc ser res hm hnd hskip h
      rw [runFieldsGo] at h
      have hnd' := List.nodup_cons.mp (by simpa using hnd :
        (f.fieldAlias :: rest.map FieldC.fieldAlias).Nodup)
      rcases List.mem_cons.mp hm with heq | hrest
      · subst heq
        rw [hskip] at h
        exact runFieldsGo_alias_preserve object fc.fieldAlias rest ser res
          (fun g hg hEq => hnd'.1 (hEq ▸ List.mem_map_of_mem FieldC.fieldAlias hg)) h
      · rcases hrf : runField f object with e0 | ov
        · rw [hrf] at h; exact absurd h (by simp)
        · rw [hrf] at h
          match ov with
          | none => exact ih fc ser res hrest hnd'.2 hskip h
          | some (a', v) =>
              have ha' : a' = f.fieldAlias := runField_some_alias f object a' v hrf
              have hne : fc.fieldAlias ≠ a' := by
                rw [ha']
                intro hEq
                exact hnd'.1 (hEq ▸ List.mem_map_of_mem FieldC.fieldAlias hrest)
              rw [ih fc _ res hrest hnd'.2 hskip h, alookup_dictUpdate_ne _ _ _ _ hne]

theorem runField_tolerant_marker (a : NsVal) (p : String) (t : Option Transform)
    (object : Value) (h : getAttrRun p object = Value.marker) :
    runField (.mk a (.tolerantG p) t) object = .ok none := by
  rw [runField]
  simp [runGetter, h]

theorem runField_strict_error (a : NsVal) (p : String) (t : Option Transform)
    (object : Value) (e : RunErr) (h : attrgetterRun p object = .error e) :
    runField (.mk a (.strictG p) t) object = .error e := by
  rw [runField]
  simp [runGetter, h]

/-! ## The claims -/

/-- Claim C1: for every schema type built over an inheritance chain
(mixins included), the merged field mapping produced by
`AnnotationsChainMap` over the mro's annotation dicts iterates names without
duplicates, in first-seen order walking from the most derived class to the
least derived (`dedupFirst` of the concatenated key lists), and the
transform-specifier value associated with each name is the one from the
most-derived class that declares that name (`firstDeclaring`). -/
theorem merged_schema_first_seen_most_derived_wins (mro : List ClassBody) :
    (chainIterKeys (mro.map ClassBody.annot)).Nodup ∧
    chainIterKeys (mro.map ClassBody.annot)
      = dedupFirst ((mro.map ClassBody.annot).flatMap (fun m => m.map Prod.fst)) ∧
    (∀ k, chainGet (mro.map ClassBody.annot) k
      = firstDeclaring (mro.map ClassBody.annot) k) ∧
    chainItems (mro.map ClassBody.annot)
      = (dedupFirst ((mro.map ClassBody.annot).flatMap (fun m => m.map Prod.fst))).filterMap
          (fun k => (firstDeclaring (mro.map ClassBody.annot) k).map (fun v => (k, v))) := by
  refine ⟨?_, ?_, ?_, ?_⟩
  · rw [chainIterKeys, dictFromKeys_eq_dedupFirst]
    exact nodup_dedupFirst _
  · rw [chainIterKeys, dictFromKeys_eq_dedupFirst]
  · intro k
    exact chainGet_eq_firstDeclaring _ k
  · rw [chainItems, chainIterKeys, dictFromKeys_eq_dedupFirst]
    congr 1
    funext k
    rw [chainGet_eq_firstDeclaring]

theorem foldl_marker_stable (names : List String)
    (h : ∀ n ∈ names, getattrD Value.marker n Value.marker = Value.marker) :
    names.foldl (fun o n => getattrD o n Value.marker) Value.marker = Value.marker := by
  induction names with
  | nil => rfl
  | cons n rest ih =>
      rw [List.foldl_cons, h n (List.mem_cons_self n rest)]
      exact ih (fun m hm => h m (List.mem_cons_of_mem _ hm))

theorem foldl_eq_shortCircuit (names : List String)
    (h : ∀ n ∈ names, getattrD Value.marker n Value.marker = Value.marker) :
    ∀ v, names.foldl (fun o n => getattrD o n Value.marker) v
      = specShortCircuitGo names v := by
  induction names with
  | nil => intro v; rfl
  | cons n rest ih =>
      intro v
      rw [List.foldl_cons, specShortCircuitGo]
      rcases hl : lookupAttr v n with _ | w
      · have hstep : getattrD v n Value.marker = Value.marker := by
          rw [getattrD, hl]
        rw [hstep]
        exact foldl_marker_stable rest (fun m hm => h m (List.mem_cons_of_mem _ hm))
      · have hstep : getattrD v n Value.marker = w := by
          rw [getattrD, hl]
        rw [hstep]
        exact ih (fun m hm => h m (List.mem_cons_of_mem _ hm)) w

/-- Claim C4 (counterexample): on the declared name `a____doc__` the accessor
compiler produces the path `a.__doc__`; evaluating the fault-tolerant
accessor on an object lacking `a` substitutes the marker for `a` but then
continues, and the lookup of `__doc__` *on the marker itself* succeeds with
the singleton class's docstring — the result is not the marker, contradicting
"short-circuits all remaining segments ... result is the marker itself
regardless of what attribute lookups on later segment names would return when
applied to the marker". -/
theorem fault_tolerant_accessor_no_short_circuit_cex :
    construct_accessor "a____doc__" = "a.__doc__" ∧
    getAttrRun "a.__doc__" (Value.obj []) = Value.strVal "Singleton class." ∧
    specShortCircuitGet "a.__doc__" (Value.obj []) = Value.marker ∧
    Value.strVal "Singleton class." ≠ Value.marker := by
  refine ⟨?_, rfl, rfl, by simp⟩
  simp [construct_accessor, constructAccessorL, partitionDunder, validSeg]

/-- Claim C4 (amended): the fault-tolerant accessor substitutes the marker as
the default of each failing segment lookup and keeps walking, applying later
segment lookups to the marker itself; therefore it agrees with the
short-circuiting walk described by the specification exactly under the
proviso that no remaining segment name resolves to something else on the
marker object (e.g. for any path avoiding the marker's own attributes such as
`__doc__`). -/
theorem fault_tolerant_accessor_marker_stable_segments (path : String) (v : Value)
    (h : ∀ n ∈ splitDot path, getattrD Value.marker n Value.marker = Value.marker) :
    getAttrRun path v = specShortCircuitGet path v := by
  rw [getAttrRun, specShortCircuitGet]
  rcases hs : splitDot path with _ | ⟨a, _ | ⟨b, rest⟩⟩
  · rfl
  · rcases hl : lookupAttr v a with _ | w
    · simp [getattrD, specShortCircuitGo, hl]
    · simp [getattrD, specShortCircuitGo, hl]
  · rw [hs] at h
    exact foldl_eq_shortCircuit (a :: b :: rest) h v

/-- Witness for the amended C4 theorem at a concrete input: the path `a.b` on
an empty object, whose segments are no attributes of the marker. -/
theorem fault_tolerant_accessor_marker_stable_segments_witness :
    getAttrRun "a.b" (Value.obj []) = specShortCircuitGet "a.b" (Value.obj []) :=
  fault_tolerant_accessor_marker_stable_segments "a.b" (Value.obj [])
    (by intro n hn; fin_cases hn <;> rfl)

/-- Claim C5: path expansion maps `a__b__c` to `a.b.c` and `_a___c` to
`_a._c` (the underscore-only segment adjacent to the delimiter is preserved
literally), and for every field name listed in `disable_accessor` the
computed getter name is exactly the field name, never split. -/
theorem path_expansion_and_disable_accessor :
    construct_accessor "a__b__c" = "a.b.c" ∧
    construct_accessor "_a___c" = "_a._c" ∧
    ∀ (dis : List String) (fieldName : String), fieldName ∈ dis →
      getterNameFor dis fieldName = fieldName := by
  refine ⟨?_, ?_, ?_⟩
  · simp [construct_accessor, constructAccessorL, partitionDunder, validSeg]
  · simp [construct_accessor, constructAccessorL, partitionDunder, validSeg]
  · intro dis fieldName hmem
    rw [getterNameFor, if_pos hmem]

/-- Witness for C5's disable-accessor clause at a concrete input: the name
`x__y`, which the accessor compiler would otherwise split. -/
theorem path_expansion_and_disable_accessor_witness :
    getterNameFor ["x__y"] "x__y" = "x__y" ∧ construct_accessor "x__y" = "x.y" := by
  refine ⟨path_expansion_and_disable_accessor.2.2 ["x__y"] "x__y" (by simp), ?_⟩
  simp [construct_accessor, constructAccessorL, partitionDunder, validSeg]

theorem compileOneField_getter (clsV : Value)
    (nss : List (List (String × NsVal))) (opt dis : List String)
    (name : String) (spec : Spec) (fc : FieldC)
    (h : compileOneField clsV nss opt dis name spec = .ok fc)
    (hnotstr : ∀ s, spec ≠ Spec.strS s) :
    fc.getter = if name ∈ opt then Getter.tolerantG (getterNameFor dis name)
      else Getter.strictG (getterNameFor dis name) := by
  cases spec with
  | ellipsisS =>
      simp [compileOneField] at h
      rw [← h]
      by_cases hopt : name ∈ opt <;> simp [FieldC.getter, hopt]
  | funcS f =>
      simp [compileOneField] at h
      rw [← h]
      by_cases hopt : name ∈ opt <;> simp [FieldC.getter, hopt]
  | serInstS many nf =>
      simp [compileOneField] at h
      rw [← h]
      by_cases hopt : name ∈ opt <;> simp [FieldC.getter, hopt]
  | serTypeS nf =>
      simp [compileOneField] at h
      rw [← h]
      by_cases hopt : name ∈ opt <;> simp [FieldC.getter, hopt]
  | otherS tag => simp [compileOneField] at h
  | strS mname => exact absurd rfl (hnotstr mname)

/-- Claim C3 (counterexample): when the class body binds the field's own name
to the Ellipsis object — a transform-specifier form — the compiled alias is
that binding, not the field name: the code runs
`namespace.get(field_name, field_name)` with no check that the binding is not
itself a transform-specifier type, so the claimed fallback to the field name
does not happen. -/
theorem output_alias_unchecked_binding_cex :
    constructFields Value.vnone [("a", Spec.ellipsisS)] [[("a", NsVal.ellipsisV)]]
      = .ok [("a", FieldC.mk NsVal.ellipsisV (Getter.strictG "a") none)] ∧
    claimAlias [[("a", NsVal.ellipsisV)]] "a" = NsVal.strV "a" ∧
    NsVal.ellipsisV ≠ NsVal.strV "a" := by
  refine ⟨?_, by simp [claimAlias, chainGet, alookup, isSpecifierForm], by simp⟩
  simp [constructFields, constructFieldsGo, compileOneField, getterNameFor,
    settingsOptional, settingsDisable, chainGet, alookup, construct_accessor,
    constructAccessorL, partitionDunder, validSeg, dictUpdate]

/-- Claim C3 (amended): for every field name in the merged mapping, the
compiled output alias equals the merged-namespace binding for that name
whenever such a binding exists — whatever its type — and equals the field
name itself only when no binding exists
(`field_alias = namespace.get(field_name, field_name)`). -/
theorem output_alias_is_namespace_binding
    (clsV : Value) (ann : List (String × Spec)) (nss : List (List (String × NsVal)))
    (parsed : List (String × FieldC)) (name : String) (spec : Spec) (fc : FieldC)
    (hok : constructFields clsV ann nss = .ok parsed)
    (hnd : (ann.map Prod.fst).Nodup)
    (hmem : (name, spec) ∈ ann)
    (hfc : alookup parsed name = some fc) :
    fc.fieldAlias = (chainGet nss name).getD (NsVal.strV name) := by
  obtain ⟨fc', hcomp, hlook⟩ :=
    constructFieldsGo_lookup clsV nss (settingsOptional nss) (settingsDisable nss)
      ann [] parsed hok hnd name spec hmem
  rw [hfc] at hlook
  injection hlook with hEq
  subst hEq
  exact compileOneField_fieldAlias clsV nss _ _ name spec fc hcomp

/-- Witness for the amended C3 theorem at a concrete input: a field `b`
with a plain string alias binding `bee`. -/
theorem output_alias_is_namespace_binding_witness :
    (FieldC.mk (NsVal.strV "bee") (Getter.strictG "b") none).fieldAlias
      = (chainGet [[("b", NsVal.strV "bee")]] "b").getD (NsVal.strV "b") :=
  output_alias_is_namespace_binding Value.vnone [("b", Spec.ellipsisS)]
    [[("b", NsVal.strV "bee")]]
    [("b", FieldC.mk (NsVal.strV "bee") (Getter.strictG "b") none)]
    "b" Spec.ellipsisS (FieldC.mk (NsVal.strV "bee") (Getter.strictG "b") none)
    (by simp [constructFields, constructFieldsGo, compileOneField, getterNameFor,
      settingsOptional, settingsDisable, chainGet, alookup, construct_accessor,
      constructAccessorL, partitionDunder, validSeg, dictUpdate])
    (by simp) (by simp) (by simp [alookup])

/-- Claim C2 (counterexample): the optional field `a____doc__` compiles to the
fault-tolerant accessor on path `a.__doc__`.  On an object without `a` the
declared path does not resolve (the strict accessor raises), yet per-object
evaluation does **not** omit the alias: the fault-tolerant walk reaches the
marker after `a` and then finds `__doc__` on the marker itself, so the alias
is emitted, bound to the singleton's docstring. -/
theorem optional_field_not_always_omitted_cex :
    constructFields Value.vnone [("a____doc__", Spec.ellipsisS)]
        [[("Settings", NsVal.settingsV ["a____doc__"] [])]]
      = .ok [("a____doc__",
          FieldC.mk (NsVal.strV "a____doc__") (Getter.tolerantG "a.__doc__") none)] ∧
    "a____doc__" ∈ settingsOptional [[("Settings", NsVal.settingsV ["a____doc__"] [])]] ∧
    attrgetterRun "a.__doc__" (Value.obj []) = .error (.attributeError "a") ∧
    runFieldsGo
        [FieldC.mk (NsVal.strV "a____doc__") (Getter.tolerantG "a.__doc__") none]
        (Value.obj []) []
      = .ok [(NsVal.strV "a____doc__", Value.strVal "Singleton class.")] ∧
    alookup [(NsVal.strV "a____doc__", Value.strVal "Singleton class.")]
        (NsVal.strV "a____doc__") ≠ none := by
  refine ⟨?_, by simp [settingsOptional, chainGet, alookup], rfl, ?_, by simp [alookup]⟩
  · simp [constructFields, constructFieldsGo, compileOneField, getterNameFor,
      settingsOptional, settingsDisable, chainGet, alookup, construct_accessor,
      constructAccessorL, partitionDunder, validSeg, dictUpdate]
  · simp [runFieldsGo, runField, runGetter, dictUpdate]
    rfl

/-- Claim C2 (amended): for a compiled field of a successfully compiled
schema (with a non-string specifier): if the field is listed optional, its
accessor is the fault-tolerant one and the alias is omitted from the result
exactly when the fault-tolerant walk yields the missing marker (a
non-resolving path may instead surface an attribute of the marker itself, in
which case the alias is emitted — see the counterexample); if the field is
not optional, its accessor is the strict one and a failing path makes the
whole evaluation fail instead of omitting the field. -/
theorem optional_marker_omits_nonoptional_propagates
    (clsV : Value) (ann : List (String × Spec)) (nss : List (List (String × NsVal)))
    (parsed : List (String × FieldC)) (name : String) (spec : Spec) (fc : FieldC)
    (object : Value)
    (hok : constructFields clsV ann nss = .ok parsed)
    (hnd : (ann.map Prod.fst).Nodup)
    (hmem : (name, spec) ∈ ann)
    (hnotstr : ∀ s, spec ≠ Spec.strS s)
    (hfc : alookup parsed name = some fc) :
    (name ∈ settingsOptional nss →
      fc.getter = Getter.tolerantG (getterNameFor (settingsDisable nss) name) ∧
      (getAttrRun (getterNameFor (settingsDisable nss) name) object = Value.marker →
        ∀ res, ((parsed.map Prod.snd).map FieldC.fieldAlias).Nodup →
          runFieldsGo (parsed.map Prod.snd) object [] = .ok res →
          alookup res fc.fieldAlias = none)) ∧
    (name ∉ settingsOptional nss →
      fc.getter = Getter.strictG (getterNameFor (settingsDisable nss) name) ∧
      (∀ e, attrgetterRun (getterNameFor (settingsDisable nss) name) object = .error e →
        ∃ e', runFieldsGo (parsed.map Prod.snd) object [] = .error e')) := by
  obtain ⟨fc', hcomp, hlook⟩ :=
    constructFieldsGo_lookup clsV nss (settingsOptional nss) (settingsDisable nss)
      ann [] parsed hok hnd name spec hmem
  rw [hfc] at hlook
  injection hlook with hEq
  subst hEq
  have hget := compileOneField_getter clsV nss _ _ name spec fc hcomp hnotstr
  have hmemf : fc ∈ parsed.map Prod.snd :=
    List.mem_map_of_mem Prod.snd (alookup_mem parsed name fc hfc)
  constructor
  · intro hopt
    rw [if_pos hopt] at hget
    refine ⟨hget, ?_⟩
    intro hmarker res hndal hrun
    obtain ⟨a0, g0, t0⟩ := fc
    have hg0 : g0 = Getter.tolerantG (getterNameFor (settingsDisable nss) name) := hget
    subst hg0
    have hskip := runField_tolerant_marker a0 _ t0 object hmarker
    have := runFieldsGo_skip_absent object (parsed.map Prod.snd)
      (FieldC.mk a0 (Getter.tolerantG (getterNameFor (settingsDisable nss) name)) t0)
      [] res hmemf hndal hskip hrun
    rw [this]
    rfl
  · intro hopt
    rw [if_neg hopt] at hget
    refine ⟨hget, ?_⟩
    intro e herr
    obtain ⟨a0, g0, t0⟩ := fc
    have hg0 : g0 = Getter.strictG (getterNameFor (settingsDisable nss) name) := hget
    subst hg0
    have hfail := runField_strict_error a0 _ t0 object e herr
    exact runFieldsGo_error_mem object (parsed.map Prod.snd) _ e hmemf hfail []

/-- Witness for the amended C2 theorem at a concrete input: the optional
field `x` on an object lacking `x` — the fault-tolerant walk yields the
marker and the alias is absent from the (here empty) result. -/
theorem optional_marker_omits_nonoptional_propagates_witness :
    alookup ([] : List (NsVal × Value))
      (FieldC.mk (NsVal.strV "x") (Getter.tolerantG "x") none).fieldAlias = none :=
  ((optional_marker_omits_nonoptional_propagates Value.vnone
      [("x", Spec.ellipsisS)] [[("Settings", NsVal.settingsV ["x"] [])]]
      [("x", FieldC.mk (NsVal.strV "x") (Getter.tolerantG "x") none)]
      "x" Spec.ellipsisS (FieldC.mk (NsVal.strV "x") (Getter.tolerantG "x") none)
      (Value.obj [])
      (by simp [constructFields, constructFieldsGo, compileOneField, getterNameFor,
        settingsOptional, settingsDisable, chainGet, alookup, construct_accessor,
        constructAccessorL, partitionDunder, validSeg, dictUpdate])
      (by simp) (by simp) (by simp) (by simp [alookup])).1
    (by simp [settingsOptional, chainGet, alookup])).2
    (by simp [getterNameFor, settingsDisable, chainGet, alookup, construct_accessor,
      constructAccessorL, partitionDunder, validSeg, getAttrRun, splitDot, splitDotGo,
      getattrD, lookupAttr])
    [] (by simp)
    (by simp [runFieldsGo, runField, runGetter, getterNameFor, settingsDisable,
      chainGet, alookup, construct_accessor, constructAccessorL, partitionDunder,
      validSeg, getAttrRun, splitDot, splitDotGo, getattrD, lookupAttr, dictUpdate])

/-- Claim C6: for a field whose specifier is a string naming a class-body
method, compilation replaces the accessor entirely by the named method bound
to the owning schema class object, which at evaluation time receives the
whole source object (no attribute-path retrieval occurs); and compilation
fails with a `MethodError` whenever the name is absent from the merged
namespace or the named binding is not a body-defined method (no `__get__`). -/
theorem string_specifier_method_binding (clsV : Value)
    (nss : List (List (String × NsVal))) (opt dis : List String)
    (name mname : String) :
    (∀ m, chainGet nss mname = some (NsVal.methodV m) →
      compileOneField clsV nss opt dis name (Spec.strS mname)
        = .ok (FieldC.mk ((chainGet nss name).getD (NsVal.strV name))
            (Getter.methodG m clsV) none)) ∧
    (∀ (m : Method) (object : Value),
      runGetter (Getter.methodG m clsV) object = .ok (Method.run m clsV object)) ∧
    (chainGet nss mname = none →
      ∃ msg, compileOneField clsV nss opt dis name (Spec.strS mname)
        = .error (.methodErr msg)) ∧
    (∀ v, chainGet nss mname = some v → (∀ m, v ≠ NsVal.methodV m) →
      ∃ msg, compileOneField clsV nss opt dis name (Spec.strS mname)
        = .error (.methodErr msg)) ∧
    (∀ (ann : List (String × Spec)) (parsed : List (String × FieldC)),
      constructFields clsV ann nss = .ok parsed →
      (name, Spec.strS mname) ∈ ann →
      ∃ m, chainGet nss mname = some (NsVal.methodV m)) := by
  refine ⟨?_, ?_, ?_, ?_, ?_⟩
  · intro m hget
    rw [compileOneField, hget]
  · intro m object
    rfl
  · intro hget
    rw [compileOneField, hget]
    exact ⟨_, rfl⟩
  · intro v hget hnm
    rw [compileOneField, hget]
    cases v with
    | methodV m => exact absurd rfl (hnm m)
    | ellipsisV => exact ⟨_, rfl⟩
    | strV s => exact ⟨_, rfl⟩
    | settingsV o d => exact ⟨_, rfl⟩
    | otherV t => exact ⟨_, rfl⟩
  · intro ann parsed hok hmem
    obtain ⟨fc, hcomp⟩ :=
      constructFieldsGo_ok_compiles clsV nss (settingsOptional nss)
        (settingsDisable nss) ann [] parsed hok name (Spec.strS mname) hmem
    rw [compileOneField] at hcomp
    rcases hget : chainGet nss mname with _ | v
    · rw [hget] at hcomp
      exact absurd hcomp (by simp)
    · rw [hget] at hcomp
      cases v with
      | methodV m => exact ⟨m, rfl⟩
      | ellipsisV => exact absurd hcomp (by simp)
      | strV s => exact absurd hcomp (by simp)
      | settingsV o d => exact absurd hcomp (by simp)
      | otherV t => exact absurd hcomp (by simp)

/-- Witness for C6 at a concrete input: the field `a` declared as
`a: 'getter_name'` where `getter_name` is the body method returning its
argument; the compiled field carries the bound method as its getter and no
transform, and running the getter hands the whole source object to the
method. -/
theorem string_specifier_method_binding_witness :
    compileOneField Value.vnone [[("getter_name", NsVal.methodV Method.argM)]] [] []
        "a" (Spec.strS "getter_name")
      = .ok (FieldC.mk
          ((chainGet [[("getter_name", NsVal.methodV Method.argM)]] "a").getD
            (NsVal.strV "a"))
          (Getter.methodG Method.argM Value.vnone) none) ∧
    runGetter (Getter.methodG Method.argM Value.vnone) (Value.obj [])
      = .ok (Method.run Method.argM Value.vnone (Value.obj [])) := by
  refine ⟨?_, ?_⟩
  · exact (string_specifier_method_binding Value.vnone
      [[("getter_name", NsVal.methodV Method.argM)]] [] [] "a" "getter_name").1
      Method.argM (by simp [chainGet, alookup])
  · exact (string_specifier_method_binding Value.vnone
      [[("getter_name", NsVal.methodV Method.argM)]] [] [] "a" "getter_name").2.1
      Method.argM (Value.obj [])

/-- Claim C7: constructing an engine instance with a fields subset containing
at least one name not among the schema's known field names raises the
unknown-fields `FieldError` naming exactly the offending fields (construction
never evaluates, so this happens before any per-object evaluation); with a
subset of the known names, construction succeeds. -/
theorem unknown_requested_fields_fail_construction
    (classFields : List (String × FieldC)) (data : Value) (fs : List String)
    (many toJson : Bool) :
    ((∃ f ∈ fs, f ∉ classFields.map Prod.fst) →
      ∃ names, serializerInit classFields data (some fs) many toJson
          = .error (.unknownFieldsErr names) ∧
        names ≠ [] ∧
        ∀ x, x ∈ names ↔ (x ∈ fs ∧ x ∉ classFields.map Prod.fst)) ∧
    ((∀ f ∈ fs, f ∈ classFields.map Prod.fst) →
      ∃ inst, serializerInit classFields data (some fs) many toJson = .ok inst) := by
  have hmemunk : ∀ x,
      x ∈ dedupFirst (fs.filter (fun f => !((classFields.map Prod.fst).contains f)))
        ↔ (x ∈ fs ∧ x ∉ classFields.map Prod.fst) := by
    intro x
    rw [mem_dedupFirst, List.mem_filter]
    simp [List.contains]
  constructor
  · rintro ⟨f, hf, hnf⟩
    have hne :
        dedupFirst (fs.filter (fun g => !((classFields.map Prod.fst).contains g))) ≠ [] := by
      intro h0
      have hmem := (hmemunk f).mpr ⟨hf, hnf⟩
      rw [h0] at hmem
      simp at hmem
    have hempty :
        (dedupFirst (fs.filter (fun g => !((classFields.map Prod.fst).contains g)))).isEmpty
          = false := by
      rcases h : dedupFirst (fs.filter (fun g => !((classFields.map Prod.fst).contains g)))
        with _ | ⟨y, ys⟩
      · exact absurd h hne
      · rfl
    refine ⟨dedupFirst (fs.filter (fun g => !((classFields.map Prod.fst).contains g))),
      ?_, hne, hmemunk⟩
    simp only [serializerInit, hempty]
    simp
  · intro hsub
    have hempty :
        dedupFirst (fs.filter (fun g => !((classFields.map Prod.fst).contains g))) = [] := by
      rcases h : dedupFirst (fs.filter (fun g => !((classFields.map Prod.fst).contains g)))
        with _ | ⟨y, ys⟩
      · rfl
      · exfalso
        have hy : y ∈ dedupFirst
            (fs.filter (fun g => !((classFields.map Prod.fst).contains g))) := by
          rw [h]
          exact List.mem_cons_self y ys
        have := (hmemunk y).mp hy
        exact this.2 (hsub y this.1)
    refine ⟨⟨data, many, toJson,
      classFields.filterMap (fun p => if fs.contains p.1 then some p.2 else none),
      Value.vnone, 0⟩, ?_⟩
    simp only [serializerInit, hempty]
    simp

/-- Witness for C7 at a concrete input: requesting the unknown field `b` from
a schema knowing only `a` fails naming `b`; the subset `["a"]` succeeds. -/
theorem unknown_requested_fields_fail_construction_witness :
    (∃ names, serializerInit
        [("a", FieldC.mk (NsVal.strV "a") (Getter.strictG "a") none)]
        Value.vnone (some ["b"]) false false
        = .error (.unknownFieldsErr names) ∧
      names ≠ [] ∧
      ∀ x, x ∈ names ↔ (x ∈ ["b"] ∧
        x ∉ ([("a", FieldC.mk (NsVal.strV "a") (Getter.strictG "a") none)].map Prod.fst))) ∧
    (∃ inst, serializerInit
        [("a", FieldC.mk (NsVal.strV "a") (Getter.strictG "a") none)]
        Value.vnone (some ["a"]) false false = .ok inst) :=
  ⟨(unknown_requested_fields_fail_construction _ Value.vnone ["b"] false false).1
      ⟨"b", by simp, by simp⟩,
   (unknown_requested_fields_fail_construction _ Value.vnone ["a"] false false).2
      (by simp)⟩

theorem serializerInit_ok_of_subset (classFields : List (String × FieldC))
    (data : Value) (fs : List String) (many toJson : Bool)
    (hsub : ∀ f ∈ fs, f ∈ classFields.map Prod.fst) :
    serializerInit classFields data (some fs) many toJson
      = .ok ⟨data, many, toJson,
        classFields.filterMap (fun p => if fs.contains p.1 then some p.2 else none),
        Value.vnone, 0⟩ := by
  have hfil : fs.filter (fun f => !((classFields.map Prod.fst).contains f)) = [] := by
    rw [List.filter_eq_nil_iff]
    intro a ha
    simp [List.contains, hsub a ha]
  simp only [serializerInit, hfil]
  simp [dedupFirst]

theorem serializerInit_ok_inv (classFields : List (String × FieldC))
    (data : Value) (fs : List String) (many toJson : Bool) (inst : SerInstance)
    (h : serializerInit classFields data (some fs) many toJson = .ok inst) :
    (∀ f ∈ fs, f ∈ classFields.map Prod.fst) ∧
    inst = ⟨data, many, toJson,
      classFields.filterMap (fun p => if fs.contains p.1 then some p.2 else none),
      Value.vnone, 0⟩ := by
  simp only [serializerInit] at h
  split at h
  · rename_i hemp
    injection h with h'
    constructor
    · intro f hf
      by_contra hnf
      have hmem : f ∈ dedupFirst
          (fs.filter (fun g => !((classFields.map Prod.fst).contains g))) := by
        rw [mem_dedupFirst, List.mem_filter]
        simp [List.contains, hf, hnf]
      rw [List.isEmpty_iff.mp hemp] at hmem
      simp at hmem
    · exact h'.symm
  · cases h

/-- Claim C9: when an instance is constructed with a fields subset, the
selected compiled fields are exactly those of the schema whose name occurs in
the subset, kept in the schema's merged declaration order (a filter of the
schema's own list); any subset argument with the same membership — whatever
its order, and with duplicates — constructs the identical instance. -/
theorem requested_subset_selects_in_schema_order
    (classFields : List (String × FieldC)) (data : Value) (fs : List String)
    (many toJson : Bool) (inst : SerInstance)
    (h : serializerInit classFields data (some fs) many toJson = .ok inst) :
    inst.selFields = classFields.filterMap
        (fun p => if fs.contains p.1 then some p.2 else none) ∧
    ∀ fs', (∀ x, fs'.contains x = fs.contains x) →
      serializerInit classFields data (some fs') many toJson = .ok inst := by
  obtain ⟨hsub, hinst⟩ := serializerInit_ok_inv classFields data fs many toJson inst h
  constructor
  · rw [hinst]
  · intro fs' hc
    have hsub' : ∀ f ∈ fs', f ∈ classFields.map Prod.fst := by
      intro f hf
      have hf' : fs.contains f = true := by
        rw [← hc]
        simp [List.contains, hf]
      exact hsub f (by simpa [List.contains] using hf')
    rw [serializerInit_ok_of_subset classFields data fs' many toJson hsub', hinst]
    have : classFields.filterMap (fun p => if fs'.contains p.1 then some p.2 else none)
        = classFields.filterMap (fun p => if fs.contains p.1 then some p.2 else none) := by
      refine List.filterMap_congr ?_
      intro p _
      rw [hc p.1]
    rw [this]

/-- Witness for C9 at a concrete input: the subset `["b", "a", "b"]`
(reversed order, duplicated) selects the same fields, in schema order, as
`["a", "b"]`. -/
theorem requested_subset_selects_in_schema_order_witness :
    (SerInstance.mk Value.vnone false false
        [FieldC.mk (NsVal.strV "a") (Getter.strictG "a") none,
         FieldC.mk (NsVal.strV "b") (Getter.strictG "b") none] Value.vnone 0).selFields
      = ([("a", FieldC.mk (NsVal.strV "a") (Getter.strictG "a") none),
          ("b", FieldC.mk (NsVal.strV "b") (Getter.strictG "b") none)]).filterMap
          (fun p => if ["b", "a", "b"].contains p.1 then some p.2 else none) ∧
    serializerInit
        [("a", FieldC.mk (NsVal.strV "a") (Getter.strictG "a") none),
         ("b", FieldC.mk (NsVal.strV "b") (Getter.strictG "b") none)]
        Value.vnone (some ["a", "b"]) false false
      = .ok (SerInstance.mk Value.vnone false false
          [FieldC.mk (NsVal.strV "a") (Getter.strictG "a") none,
           FieldC.mk (NsVal.strV "b") (Getter.strictG "b") none] Value.vnone 0) :=
  requested_subset_selects_in_schema_order
    [("a", FieldC.mk (NsVal.strV "a") (Getter.strictG "a") none),
     ("b", FieldC.mk (NsVal.strV "b") (Getter.strictG "b") none)]
    Value.vnone ["b", "a", "b"] false false
    (SerInstance.mk Value.vnone false false
      [FieldC.mk (NsVal.strV "a") (Getter.strictG "a") none,
       FieldC.mk (NsVal.strV "b") (Getter.strictG "b") none] Value.vnone 0)
    (by simp [serializerInit, dedupFirst])
    |>.imp id (fun h2 => h2 ["a", "b"] (by intro x; simp [List.contains]; tauto))

/-- Claim C8: evaluating the same engine instance twice returns the identical
result value both times; when the first result is truthy the second call
returns it from the memo slot without recomputation (the instance state is
unchanged, the ghost compute counter does not advance); when the first result
is falsy (the documented §9 edge case: an empty dict/list/string is treated
as "not yet computed") the second call needlessly recomputes — advancing the
counter — but still returns the same value, the held data being unchanged. -/
theorem serialize_memoizes (inst : SerInstance) (r : Value) (inst1 : SerInstance)
    (h : serialize inst = .ok (r, inst1)) :
    ∃ inst2, serialize inst1 = .ok (r, inst2) ∧
      (truthy r = true → inst2 = inst1) ∧
      (truthy r = false →
        inst2.computeCount = inst1.computeCount + 1 ∧ inst2.serializedData = r) := by
  rw [serialize] at h
  split at h
  · rename_i htr
    injection h with hpair
    obtain ⟨hr, hi⟩ := Prod.mk.inj hpair
    refine ⟨inst1, ?_, fun _ => rfl, fun hf => ?_⟩
    · rw [serialize, ← hi, if_pos htr, hr]
    · rw [← hr] at hf
      exact absurd htr (by simp [hf])
  · rename_i htr
    rcases hc : computeSer inst with e | r0
    · rw [hc] at h
      cases h
    · rw [hc] at h
      injection h with hpair
      obtain ⟨hr, hi⟩ := Prod.mk.inj hpair
      subst hr
      have hfields : computeSer inst1 = computeSer inst := by
        rw [← hi]
        rfl
      have hsd : inst1.serializedData = r0 := by
        rw [← hi]
      by_cases htr0 : truthy r0 = true
      · refine ⟨inst1, ?_, fun _ => rfl, fun hf => absurd htr0 (by simp [hf])⟩
        rw [serialize, hsd, if_pos htr0]
      · have htr0' : truthy r0 = false := by
          simp at htr0
          exact htr0
        refine ⟨{ inst1 with
            serializedData := r0
            computeCount := inst1.computeCount + 1 },
          ?_, fun ht => absurd ht htr0, fun _ => ⟨rfl, rfl⟩⟩
        rw [serialize, hsd, if_neg (by simp [htr0']), hfields, hc]

/-- Witness for C8 at a concrete input: a single-object instance over one
strict field; the first call computes `{"a": 1}`, and since that dict is
truthy the second call returns it with unchanged state. -/
theorem serialize_memoizes_witness :
    ∃ inst2, serialize
        (SerInstance.mk (Value.obj [("a", Value.intV 1)]) false false
          [FieldC.mk (NsVal.strV "a") (Getter.strictG "a") none]
          (Value.dictV [(NsVal.strV "a", Value.intV 1)]) 1)
        = .ok (Value.dictV [(NsVal.strV "a", Value.intV 1)], inst2) ∧
      (truthy (Value.dictV [(NsVal.strV "a", Value.intV 1)]) = true →
        inst2 = SerInstance.mk (Value.obj [("a", Value.intV 1)]) false false
          [FieldC.mk (NsVal.strV "a") (Getter.strictG "a") none]
          (Value.dictV [(NsVal.strV "a", Value.intV 1)]) 1) ∧
      (truthy (Value.dictV [(NsVal.strV "a", Value.intV 1)]) = false →
        inst2.computeCount = (SerInstance.mk (Value.obj [("a", Value.intV 1)]) false false
          [FieldC.mk (NsVal.strV "a") (Getter.strictG "a") none]
          (Value.dictV [(NsVal.strV "a", Value.intV 1)]) 1).computeCount + 1 ∧
        inst2.serializedData = Value.dictV [(NsVal.strV "a", Value.intV 1)]) :=
  serialize_memoizes
    (SerInstance.mk (Value.obj [("a", Value.intV 1)]) false false
      [FieldC.mk (NsVal.strV "a") (Getter.strictG "a") none] Value.vnone 0)
    (Value.dictV [(NsVal.strV "a", Value.intV 1)])
    (SerInstance.mk (Value.obj [("a", Value.intV 1)]) false false
      [FieldC.mk (NsVal.strV "a") (Getter.strictG "a") none]
      (Value.dictV [(NsVal.strV "a", Value.intV 1)]) 1)
    (by simp [serialize, truthy, computeSer, computeCore, applyGetters, runFieldsGo,
      runField, runGetter, attrgetterRun, splitDot, splitDotGo, lookupAttr, alookup,
      dictUpdate])

/-- Claim C10: a successful factory call mutates the caller-supplied
namespace mapping (modelled by returning its final state): when keyword
settings are given the "Settings" entry is inserted (dict-update semantics),
when none are given the ordinary entries are untouched, and in every case the
namespace's `__annotations__` key is rebound to the supplied fields
mapping. -/
theorem factory_mutates_namespace
    (clsV : Value) (nm : String) (bases : Option (List BaseCls))
    (fields0 : List (String × Spec)) (ns0 : PyNamespace)
    (settings : Option (List String × List String))
    (result : PyNamespace × List (String × FieldC))
    (h : makeSerializer clsV nm bases (some fields0) (some ns0) settings = .ok result) :
    result.1.annMapping = some fields0 ∧
    (∀ opt dis, settings = some (opt, dis) →
      result.1.entries = dictUpdate ns0.entries "Settings" (NsVal.settingsV opt dis) ∧
      alookup result.1.entries "Settings" = some (NsVal.settingsV opt dis)) ∧
    (settings = none → result.1.entries = ns0.entries) := by
  rcases settings with _ | ⟨opt, dis⟩
  · simp only [makeSerializer] at h
    split at h
    · split at h <;> cases h
    · split at h
      · split at h
        · cases h
        · rename_i compiled hcs
          injection h with h'
          refine ⟨?_, ?_, fun _ => ?_⟩
          · rw [← h']
            rfl
          · intro opt dis hset
            cases hset
          · rw [← h']
            rfl
      · cases h
  · simp only [makeSerializer] at h
    split at h
    · split at h <;> cases h
    · split at h
      · split at h
        · cases h
        · rename_i compiled hcs
          injection h with h'
          refine ⟨?_, ?_, fun hset => ?_⟩
          · rw [← h']
            rfl
          · intro opt' dis' hset
            injection hset with hset'
            obtain ⟨ho, hd⟩ := Prod.mk.inj hset'
            subst ho
            subst hd
            refine ⟨by rw [← h']; rfl, ?_⟩
            rw [← h']
            exact alookup_dictUpdate_self _ _ _
          · cases hset
      · cases h

/-- Witness for C10 at a concrete input: a factory call with one field `a`,
an empty caller namespace and the keyword setting `optional=("a",)`; the
final namespace holds the inserted `Settings` entry and the rebound
`__annotations__` key. -/
theorem factory_mutates_namespace_witness :
    (PyNamespace.mk [("Settings", NsVal.settingsV ["a"] [])]
        (some [("a", Spec.ellipsisS)]),
      [("a", FieldC.mk (NsVal.strV "a") (Getter.tolerantG "a") none)]).1.annMapping
      = some [("a", Spec.ellipsisS)] ∧
    (∀ opt dis, (some (["a"], []) : Option (List String × List String)) = some (opt, dis) →
      (PyNamespace.mk [("Settings", NsVal.settingsV ["a"] [])]
          (some [("a", Spec.ellipsisS)]),
        [("a", FieldC.mk (NsVal.strV "a") (Getter.tolerantG "a") none)]).1.entries
        = dictUpdate ([] : List (String × NsVal)) "Settings" (NsVal.settingsV opt dis) ∧
      alookup (PyNamespace.mk [("Settings", NsVal.settingsV ["a"] [])]
          (some [("a", Spec.ellipsisS)]),
        [("a", FieldC.mk (NsVal.strV "a") (Getter.tolerantG "a") none)]).1.entries
        "Settings" = some (NsVal.settingsV opt dis)) ∧
    ((some (["a"], []) : Option (List String × List String)) = none →
      (PyNamespace.mk [("Settings", NsVal.settingsV ["a"] [])]
          (some [("a", Spec.ellipsisS)]),
        [("a", FieldC.mk (NsVal.strV "a") (Getter.tolerantG "a") none)]).1.entries
        = ([] : List (String × NsVal))) :=
  factory_mutates_namespace Value.vnone "S" none [("a", Spec.ellipsisS)]
    (PyNamespace.mk [] none) (some (["a"], []))
    (PyNamespace.mk [("Settings", NsVal.settingsV ["a"] [])]
        (some [("a", Spec.ellipsisS)]),
      [("a", FieldC.mk (NsVal.strV "a") (Getter.tolerantG "a") none)])
    (by simp [makeSerializer, factoryKeys, pyIsIdentifier, pyKeywords, dictUpdate,
      serializerBase, compileSchema, constructFields, constructFieldsGo, compileOneField,
      settingsOptional, settingsDisable, chainGet, alookup, chainItems, chainIterKeys,
      dictFromKeys, dictFromKeysGo, getterNameFor, construct_accessor, constructAccessorL,
      partitionDunder, validSeg, List.find?])
